import Mathlib

/-!
Verification of the yeast-dough rise-time estimator (bread_rise_time.py).

The functions of the source file are embedded shallowly:
real-valued arithmetic (including the power-law model, which uses
fractional exponents) is carried out over `ℝ` with `Real.rpow`;
fallible functions (which raise `ValueError` in the source) return
`Except String`; the duration parser, which is exact decimal
arithmetic, is modelled over `ℚ`.
-/

/-- Result record of the forward model (`RiseEstimate` in the source). -/
structure RiseEstimate where
  hours : ℝ
  low_hours : ℝ
  high_hours : ℝ
  warnings : List String

/-- Result record of the inverse model (`YeastNeeded` in the source). -/
structure YeastNeeded where
  dry_equiv_g : ℝ
  yeast_g : ℝ
  yeast_type : String
  warnings : List String

def err_flour : String := "flour_g must be > 0"

def err_dry_yeast : String := "dry_yeast_equiv_g must be > 0"

def err_desired_time : String := "desired_time_h must be > 0"

def err_yeast_pos : String := "yeast must be > 0 (tool is only for yeast dough)."

def err_dry_equiv_pos : String := "dry_equiv_g must be > 0"

def err_yeast_type : String := "yeast_type must be dry or fresh."

def err_time_pos : String := "time must be > 0"

def err_final_factor : String := "final_factor must be > 0"

def err_stage : String := "stage must be one of: bulk, final, total"

def err_parse : String := "Could not parse --time."

def msg_temp_unusual : String := "Room temperature looks unusual; results may be unreliable."

def msg_cold_forward : String := "Cold environment: yeast activity will be very slow."

def msg_warm_forward : String := "Very warm environment: dough may overproof quickly; watch closely."

def msg_hot_forward : String := "Caution: very warm conditions can stress or kill yeast in real dough."

def msg_cold_inverse : String := "Cold environment: required yeast may be high; consider a warmer spot."

def msg_warm_inverse : String := "Very warm environment: required yeast may be very low; watch closely."

def msg_tiny_yeast : String := "Computed yeast is extremely small; measurement error will dominate (use a scale)."

def msg_much_yeast : String := "Computed yeast is very high; dough may taste yeasty and rise too fast/unevenly."

def msg_short_target : String := "Very short rise targets are hard to control; consider increasing temperature instead."

/-- The code points of the characters Python treats as whitespace: the set
matched by the regex class \\s and the set stripped by str.strip() coincide
(both use the same Unicode whitespace predicate). -/
def wsCodes : List ℕ :=
  [0x9, 0xA, 0xB, 0xC, 0xD, 0x1C, 0x1D, 0x1E, 0x1F, 0x20, 0x85, 0xA0, 0x1680,
   0x2000, 0x2001, 0x2002, 0x2003, 0x2004, 0x2005, 0x2006, 0x2007, 0x2008,
   0x2009, 0x200A, 0x2028, 0x2029, 0x202F, 0x205F, 0x3000]

/-- Whether a character is whitespace to Python (str.strip() and the regex
class \\s). -/
def pyIsSpace (c : Char) : Bool :=
  wsCodes.contains c.toNat

/-- The code points of the zero digit of each contiguous run of ten Unicode
decimal digits (category Nd, Unicode 14.0.0, the database of the Python that
runs this program).  Every character matched by the regex class \\d is
z + v for exactly one run start z in this list and one value v in 0..9, and
float() reads it as the digit v. -/
def ndZeroPoints : List ℕ :=
  [0x30, 0x660, 0x6F0, 0x7C0, 0x966, 0x9E6, 0xA66, 0xAE6, 0xB66, 0xBE6,
   0xC66, 0xCE6, 0xD66, 0xDE6, 0xE50, 0xED0, 0xF20, 0x1040, 0x1090, 0x17E0,
   0x1810, 0x1946, 0x19D0, 0x1A80, 0x1A90, 0x1B50, 0x1BB0, 0x1C40, 0x1C50,
   0xA620, 0xA8D0, 0xA900, 0xA9D0, 0xA9F0, 0xAA50, 0xABF0, 0xFF10, 0x104A0,
   0x10D30, 0x11066, 0x110F0, 0x11136, 0x111D0, 0x112F0, 0x11450, 0x114D0,
   0x11650, 0x116C0, 0x11730, 0x118E0, 0x11950, 0x11C50, 0x11D50, 0x11DA0,
   0x16A60, 0x16AC0, 0x16B50, 0x1D7CE, 0x1D7D8, 0x1D7E2, 0x1D7EC, 0x1D7F6,
   0x1E140, 0x1E2F0, 0x1E950, 0x1FBF0]

/-- Whether a character is a decimal digit to Python (the regex class
\\d, i.e. Unicode category Nd). -/
def pyIsDigit (c : Char) : Bool :=
  ndZeroPoints.any fun z => decide (z ≤ c.toNat) && decide (c.toNat ≤ z + 9)

/-- The decimal value of a digit character: its offset inside its run of
ten, which is what float() reads it as. -/
def pyDigitVal (c : Char) : ℕ :=
  match ndZeroPoints.find? (fun z => decide (z ≤ c.toNat) && decide (c.toNat ≤ z + 9)) with
  | some z => c.toNat - z
  | none => 0

/-- Drop leading and trailing whitespace from a character list
(the semantics of Python str.strip()). -/
def stripChars (cs : List Char) : List Char :=
  ((cs.dropWhile pyIsSpace).reverse.dropWhile pyIsSpace).reverse

/-- Python `s.strip().lower()`, used to normalise enum-like string arguments
(these are compared against the ASCII literals dry/fresh/bulk/final/total,
for which ASCII lowercasing agrees with str.lower()). -/
def pyStripLower (s : String) : String :=
  String.mk ((stripChars s.toList).map Char.toLower)

/-- Value of a nonempty digit string, most significant digit first, each
character contributing its Unicode decimal value, exactly as float() reads
the text matched by a `\d+` group. -/
def digitsVal (ds : List Char) : ℚ :=
  ds.foldl (fun acc c => 10 * acc + (pyDigitVal c : ℚ)) 0

/-- Match a leading `\d+(\.\d+)?` group at the front of `cs` (greedy, as the
regex engine matches it, with \d the Unicode decimal digits) and return its
numeric value together with the unconsumed remainder; `none` when no such
prefix exists. -/
def splitNumber (cs : List Char) : Option (ℚ × List Char) :=
  if cs.takeWhile pyIsDigit = [] then none
  else
    match cs.dropWhile pyIsDigit with
    | [] => some (digitsVal (cs.takeWhile pyIsDigit), [])
    | c :: r2 =>
      if c = '.' then
        if r2.takeWhile pyIsDigit = [] then none
        else some (digitsVal (cs.takeWhile pyIsDigit) +
          digitsVal (r2.takeWhile pyIsDigit) / 10 ^ (r2.takeWhile pyIsDigit).length,
          r2.dropWhile pyIsDigit)
      else some (digitsVal (cs.takeWhile pyIsDigit), c :: r2)

/-- Full match of the bare-number pattern `\d+(\.\d+)?`. -/
def matchBareNumber (cs : List Char) : Option ℚ :=
  match splitNumber cs with
  | some (v, []) => some v
  | _ => none

/-- Full match of a pattern `\s*(\d+(\.\d+)?)\s*(alt_1|...|alt_n)\s*` where
the alternatives are the given unit spellings and \d, \s are Python's
Unicode character classes. -/
def matchNumberUnit (cs : List Char) (units : List (List Char)) : Option ℚ :=
  match splitNumber (cs.dropWhile pyIsSpace) with
  | none => none
  | some (v, rest) =>
    if units.contains
        (((rest.dropWhile pyIsSpace).reverse.dropWhile pyIsSpace).reverse)
    then some v else none

/-- The minute-unit spellings `m|min|mins|minute|minutes`. -/
def minuteUnits : List (List Char) :=
  [("m").toList, ("min").toList, ("mins").toList, ("minute").toList, ("minutes").toList]

/-- The hour-unit spellings `h|hr|hrs|hour|hours`. -/
def hourUnits : List (List Char) :=
  [("h").toList, ("hr").toList, ("hrs").toList, ("hour").toList, ("hours").toList]

/-- The normalisation the source applies before matching:
`value.strip().lower()` followed by `s.replace(",", ".")`.  Lowercasing is
modelled on ASCII letters only (Char.toLower), which agrees with str.lower()
on the acceptance and value of every input: the only non-ASCII character
whose Python lowercase is an ASCII letter is the Kelvin sign (which lowers
to k, a letter no unit spelling contains), the only multi-character
lowering (capital dotted I) introduces a combining dot that can occur in no
accepted form, and no character lowers to a digit, to whitespace, to a dot
or to a comma. -/
def normalizeInput (value : String) : List Char :=
  ((stripChars value.toList).map Char.toLower).map fun c => if c = ',' then '.' else c

/-- `parse_duration_to_hours` from the source. -/
def parse_duration_to_hours (value : String) : Except String ℚ :=
  match matchBareNumber (normalizeInput value) with
  | some h => if h ≤ 0 then Except.error err_time_pos else Except.ok h
  | none =>
    match matchNumberUnit (normalizeInput value) minuteUnits with
    | some minutes =>
      if minutes ≤ 0 then Except.error err_time_pos else Except.ok (minutes / 60)
    | none =>
      match matchNumberUnit (normalizeInput value) hourUnits with
      | some hours =>
        if hours ≤ 0 then Except.error err_time_pos else Except.ok hours
      | none => Except.error err_parse

/-- Spec-side grammar: a decimal literal, written `digits` or
`digits.digits`, with its denoted value. -/
def DecimalShape (cs : List Char) (v : ℚ) : Prop :=
  (cs ≠ [] ∧ (∀ c ∈ cs, pyIsDigit c = true) ∧ v = digitsVal cs) ∨
  (∃ a b, cs = a ++ '.' :: b ∧ a ≠ [] ∧ b ≠ [] ∧ (∀ c ∈ a, pyIsDigit c = true) ∧
    (∀ c ∈ b, pyIsDigit c = true) ∧ v = digitsVal a + digitsVal b / 10 ^ b.length)

/-- Spec-side grammar of the accepted duration forms (applied to the
normalised input): either a bare decimal read as hours, or a decimal
followed by a minute-form or hour-form unit, with optional whitespace
around the number and after the unit; the related value is the duration
in hours. -/
def DurationForm (cs : List Char) (h : ℚ) : Prop :=
  DecimalShape cs h ∨
  (∃ w0 num w1 u w2 v,
    cs = w0 ++ num ++ w1 ++ u ++ w2 ∧
    (∀ c ∈ w0, pyIsSpace c = true) ∧ DecimalShape num v ∧
    (∀ c ∈ w1, pyIsSpace c = true) ∧ (∀ c ∈ w2, pyIsSpace c = true) ∧
    ((u ∈ minuteUnits ∧ h = v / 60) ∨ (u ∈ hourUnits ∧ h = v)))

/-- A sane unit token: nonempty, and free of whitespace, digits and dots.
All ten unit spellings satisfy this. -/
def goodUnit (u : List Char) : Prop :=
  u ≠ [] ∧ ∀ c ∈ u, pyIsSpace c = false ∧ pyIsDigit c = false ∧ c ≠ '.'

noncomputable section

open Real

/-- `to_dry_equivalent_grams` from the source. -/
def to_dry_equivalent_grams (yeast_g : ℝ) (yeast_type : String)
    (fresh_to_dry_factor : ℝ) : Except String ℝ :=
  if yeast_g ≤ 0 then Except.error err_yeast_pos
  else
    let yt := pyStripLower yeast_type
    if yt = ("dry") then Except.ok yeast_g
    else if yt = ("fresh") then Except.ok (yeast_g * fresh_to_dry_factor)
    else Except.error err_yeast_type

/-- `from_dry_equivalent_grams` from the source. -/
def from_dry_equivalent_grams (dry_equiv_g : ℝ) (yeast_type : String)
    (fresh_to_dry_factor : ℝ) : Except String ℝ :=
  if dry_equiv_g ≤ 0 then Except.error err_dry_equiv_pos
  else
    let yt := pyStripLower yeast_type
    if yt = ("dry") then Except.ok dry_equiv_g
    else if yt = ("fresh") then Except.ok (dry_equiv_g / fresh_to_dry_factor)
    else Except.error err_yeast_type

/-- `estimate_rise_time_hours` from the source.  The keyword parameters of
the Python function are ordinary positional parameters here; call sites in
the theorems pass the Python defaults `500 7 1 25 0.9 2` explicitly. -/
def estimate_rise_time_hours (flour_g dry_yeast_equiv_g room_temp_c
    baseline_flour_g baseline_yeast_g baseline_time_h baseline_temp_c
    yeast_exponent q10 : ℝ) : Except String RiseEstimate :=
  if flour_g ≤ 0 then Except.error err_flour
  else if dry_yeast_equiv_g ≤ 0 then Except.error err_dry_yeast
  else
    let warnings : List String :=
      (if room_temp_c < -10 ∨ room_temp_c > 50 then [msg_temp_unusual] else []) ++
      (if room_temp_c < 10 then [msg_cold_forward] else []) ++
      (if room_temp_c > 32 then [msg_warm_forward] else []) ++
      (if room_temp_c ≥ 40 then [msg_hot_forward] else [])
    let baseline_ratio_v := baseline_yeast_g / baseline_flour_g
    let ratio_v := dry_yeast_equiv_g / flour_g
    let yeast_factor := (baseline_ratio_v / ratio_v) ^ yeast_exponent
    let temp_factor := q10 ^ ((baseline_temp_c - room_temp_c) / 10)
    let est_h := baseline_time_h * yeast_factor * temp_factor
    let est_h2 := max 0.15 est_h
    let est_h3 := min 72 est_h2
    Except.ok ⟨est_h3, est_h3 * 0.75, est_h3 * 1.35, warnings⟩

/-- The unclamped bulk-hours value computed on lines 173-179 of the source,
i.e. `baseline_time_h * yeast_factor * temp_factor` before the clamp. -/
def raw_bulk_hours (flour_g dry_yeast_equiv_g room_temp_c
    baseline_flour_g baseline_yeast_g baseline_time_h baseline_temp_c
    yeast_exponent q10 : ℝ) : ℝ :=
  baseline_time_h *
    ((baseline_yeast_g / baseline_flour_g) / (dry_yeast_equiv_g / flour_g)) ^ yeast_exponent *
    q10 ^ ((baseline_temp_c - room_temp_c) / 10)

/-- The warning list built by the forward model for a given temperature. -/
def forward_warnings (room_temp_c : ℝ) : List String :=
  (if room_temp_c < -10 ∨ room_temp_c > 50 then [msg_temp_unusual] else []) ++
  (if room_temp_c < 10 then [msg_cold_forward] else []) ++
  (if room_temp_c > 32 then [msg_warm_forward] else []) ++
  (if room_temp_c ≥ 40 then [msg_hot_forward] else [])

/-- `required_yeast_for_time` from the source, with the keyword parameters
made positional (defaults `0.33 500 7 1 25 0.9 2` are passed at call sites). -/
def required_yeast_for_time (flour_g desired_time_h room_temp_c : ℝ)
    (yeast_type : String) (fresh_to_dry_factor baseline_flour_g baseline_yeast_g
    baseline_time_h baseline_temp_c yeast_exponent q10 : ℝ) :
    Except String YeastNeeded :=
  if flour_g ≤ 0 then Except.error err_flour
  else if desired_time_h ≤ 0 then Except.error err_desired_time
  else
    let warnings1 : List String :=
      (if room_temp_c < -10 ∨ room_temp_c > 50 then [msg_temp_unusual] else []) ++
      (if room_temp_c < 10 then [msg_cold_inverse] else []) ++
      (if room_temp_c > 32 then [msg_warm_inverse] else [])
    let baseline_ratio_v := baseline_yeast_g / baseline_flour_g
    let temp_factor := q10 ^ ((baseline_temp_c - room_temp_c) / 10)
    let ratio_v := baseline_ratio_v *
      (baseline_time_h * temp_factor / desired_time_h) ^ (1 / yeast_exponent)
    let dry_equiv_g := ratio_v * flour_g
    let warnings2 : List String :=
      (if dry_equiv_g < 0.1 then [msg_tiny_yeast] else []) ++
      (if dry_equiv_g > 30 then [msg_much_yeast] else []) ++
      (if desired_time_h < 0.5 then [msg_short_target] else [])
    (from_dry_equivalent_grams dry_equiv_g yeast_type fresh_to_dry_factor).map
      (fun yeast_g => ⟨dry_equiv_g, yeast_g, yeast_type, warnings1 ++ warnings2⟩)

/-- The dry-equivalent grams computed by `required_yeast_for_time` under the
default calibration: `ratio * flour_g` with
`ratio = (7/500) * (1 * temp_factor / desired_time_h) ^ (1/0.9)`. -/
def inv_dry_equiv (flour_g desired_time_h room_temp_c : ℝ) : ℝ :=
  (7 / 500) * (1 * (2 : ℝ) ^ ((25 - room_temp_c) / 10) / desired_time_h) ^ ((1 : ℝ) / 0.9) *
    flour_g

/-- The warning list built by the inverse model (temperature bands, then
extreme-quantity advisories). -/
def inverse_warnings (desired_time_h room_temp_c dry_equiv_g : ℝ) : List String :=
  ((if room_temp_c < -10 ∨ room_temp_c > 50 then [msg_temp_unusual] else []) ++
   (if room_temp_c < 10 then [msg_cold_inverse] else []) ++
   (if room_temp_c > 32 then [msg_warm_inverse] else [])) ++
  ((if dry_equiv_g < 0.1 then [msg_tiny_yeast] else []) ++
   (if dry_equiv_g > 30 then [msg_much_yeast] else []) ++
   (if desired_time_h < 0.5 then [msg_short_target] else []))

/-- `stage_times_from_bulk` from the source; the Python dict with keys
`bulk`, `final`, `total` is modelled as a finite map `String → Option ℝ`. -/
def stage_times_from_bulk (bulk_h final_factor : ℝ) : String → Option ℝ :=
  let final_h := bulk_h * final_factor
  let total_h := bulk_h + final_h
  fun key =>
    if key = ("bulk") then some bulk_h
    else if key = ("final") then some final_h
    else if key = ("total") then some total_h
    else none

/-- `bulk_from_stage_time` from the source. -/
def bulk_from_stage_time (stage : String) (stage_time_h final_factor : ℝ) :
    Except String ℝ :=
  if stage_time_h ≤ 0 then Except.error err_time_pos
  else if final_factor ≤ 0 then Except.error err_final_factor
  else
    let st := pyStripLower stage
    if st = ("bulk") then Except.ok stage_time_h
    else if st = ("final") then Except.ok (stage_time_h / final_factor)
    else if st = ("total") then Except.ok (stage_time_h / (1 + final_factor))
    else Except.error err_stage

end

theorem pyStripLower_bulk : pyStripLower ("bulk") = ("bulk") := by decide

theorem pyStripLower_final : pyStripLower ("final") = ("final") := by decide

theorem pyStripLower_total : pyStripLower ("total") = ("total") := by decide

theorem pyStripLower_dry : pyStripLower ("dry") = ("dry") := by decide

theorem pyStripLower_fresh : pyStripLower ("fresh") = ("fresh") := by decide

/-- C3: with the default calibration, `estimate_rise_time_hours 500 7 25`
reproduces the baseline exactly: 1.0 hours, with band [0.75, 1.35] and no
warnings. -/
theorem c3_calibration_identity :
    estimate_rise_time_hours 500 7 25 500 7 1 25 0.9 2 =
      Except.ok ⟨1, 0.75, 1.35, []⟩ := by
  unfold estimate_rise_time_hours
  norm_num [Real.rpow_zero, min_def, max_def]

/-- C7: converting a fresh-yeast mass to dry equivalent and back is the
identity, for every mass `x > 0` and conversion factor `f > 0`. -/
theorem c7_yeast_type_round_trip (x f : ℝ) (hx : 0 < x) (hf : 0 < f) :
    (to_dry_equivalent_grams x ("fresh") f).bind
      (fun d => from_dry_equivalent_grams d ("fresh") f) = Except.ok x := by
  unfold to_dry_equivalent_grams from_dry_equivalent_grams
  rw [if_neg (not_le.2 hx)]
  simp only [pyStripLower_fresh, show (("fresh" : String) = ("dry")) = False by decide,
    if_false, if_true, Except.bind]
  rw [if_neg (not_le.2 (mul_pos hx hf)),
    mul_div_assoc, div_self (ne_of_gt hf), mul_one]

/-- C7 witness at x = 2 g fresh, f = 0.33. -/
theorem c7_yeast_type_round_trip_witness :
    (to_dry_equivalent_grams 2 ("fresh") 0.33).bind
      (fun d => from_dry_equivalent_grams d ("fresh") 0.33) = Except.ok 2 :=
  c7_yeast_type_round_trip 2 0.33 (by norm_num) (by norm_num)

/-- C6: for every bulk duration `b > 0` and final factor `f > 0`, reading any
of the three stages out of `stage_times_from_bulk` and feeding it back into
`bulk_from_stage_time` recovers `b` exactly. -/
theorem c6_stage_round_trip (b f : ℝ) (hb : 0 < b) (hf : 0 < f) :
    ∀ s ∈ ([("bulk"), ("final"), ("total")] : List String),
      ∃ ts, stage_times_from_bulk b f s = some ts ∧
        bulk_from_stage_time s ts f = Except.ok b := by
  have hf' : f ≠ 0 := ne_of_gt hf
  have h1f : (1 : ℝ) + f ≠ 0 := by positivity
  intro s hs
  unfold stage_times_from_bulk bulk_from_stage_time
  simp only [List.mem_cons, List.not_mem_nil, or_false] at hs
  rcases hs with rfl | rfl | rfl
  · refine ⟨b, by simp only [if_true], ?_⟩
    rw [if_neg (not_le.2 hb), if_neg (not_le.2 hf)]
    simp only [pyStripLower_bulk, if_true]
  · refine ⟨b * f, ?_, ?_⟩
    · simp only [show (("final" : String) = ("bulk")) = False by decide, if_false, if_true]
    · rw [if_neg (not_le.2 (mul_pos hb hf)), if_neg (not_le.2 hf)]
      simp only [pyStripLower_final,
        show (("final" : String) = ("bulk")) = False by decide, if_false, if_true]
      rw [mul_div_assoc, div_self hf', mul_one]
  · refine ⟨b + b * f, ?_, ?_⟩
    · simp only [show (("total" : String) = ("bulk")) = False by decide,
        show (("total" : String) = ("final")) = False by decide, if_false, if_true]
    · have hbf : (0 : ℝ) < b + b * f := by nlinarith
      rw [if_neg (not_le.2 hbf), if_neg (not_le.2 hf)]
      simp only [pyStripLower_total,
        show (("total" : String) = ("bulk")) = False by decide,
        show (("total" : String) = ("final")) = False by decide, if_false, if_true]
      rw [Except.ok.injEq, div_eq_iff h1f]
      ring

/-- C6 witness at b = 2, f = 0.6, stage = total. -/
theorem c6_stage_round_trip_witness :
    ∃ ts, stage_times_from_bulk 2 0.6 ("total") = some ts ∧
      bulk_from_stage_time ("total") ts 0.6 = Except.ok 2 :=
  c6_stage_round_trip 2 0.6 (by norm_num) (by norm_num) ("total") (by simp)

/-- C10: `stage_times_from_bulk` validates nothing and is total: for every
real `b` and `f` (zero and negative included) it returns the mapping
bulk ↦ b, final ↦ b*f, total ↦ b*(1+f); `bulk_from_stage_time`, in
contrast, rejects every non-positive stage time or final factor. -/
theorem c10_stage_times_total_function :
    (∀ b f : ℝ,
      stage_times_from_bulk b f ("bulk") = some b ∧
      stage_times_from_bulk b f ("final") = some (b * f) ∧
      stage_times_from_bulk b f ("total") = some (b * (1 + f))) ∧
    (∀ (s : String) (t g : ℝ), t ≤ 0 ∨ g ≤ 0 →
      ∃ e, bulk_from_stage_time s t g = Except.error e) := by
  constructor
  · intro b f
    unfold stage_times_from_bulk
    refine ⟨by simp only [if_true], ?_, ?_⟩
    · simp only [show (("final" : String) = ("bulk")) = False by decide, if_false, if_true]
    · simp only [show (("total" : String) = ("bulk")) = False by decide,
        show (("total" : String) = ("final")) = False by decide, if_false, if_true,
        Option.some.injEq]
      ring
  · intro s t g hng
    unfold bulk_from_stage_time
    by_cases ht : t ≤ 0
    · exact ⟨err_time_pos, by rw [if_pos ht]⟩
    · have hg : g ≤ 0 := hng.resolve_left ht
      exact ⟨err_final_factor, by rw [if_neg ht, if_pos hg]⟩

/-- C10 witness: the mapping at b = -1, f = 0, and the rejection of a
non-positive stage time. -/
theorem c10_stage_times_total_function_witness :
    (stage_times_from_bulk (-1) 0 ("bulk") = some (-1) ∧
      stage_times_from_bulk (-1) 0 ("final") = some ((-1) * 0) ∧
      stage_times_from_bulk (-1) 0 ("total") = some ((-1) * (1 + 0))) ∧
    ∃ e, bulk_from_stage_time ("bulk") (-1) 0.6 = Except.error e :=
  ⟨c10_stage_times_total_function.1 (-1) 0,
    c10_stage_times_total_function.2 ("bulk") (-1) 0.6 (Or.inl (by norm_num))⟩

theorem estimate_eq_ok (flour y t bf byg bt btc e q : ℝ) (h1 : 0 < flour) (h2 : 0 < y) :
    estimate_rise_time_hours flour y t bf byg bt btc e q =
      Except.ok ⟨min 72 (max 0.15 (raw_bulk_hours flour y t bf byg bt btc e q)),
        min 72 (max 0.15 (raw_bulk_hours flour y t bf byg bt btc e q)) * 0.75,
        min 72 (max 0.15 (raw_bulk_hours flour y t bf byg bt btc e q)) * 1.35,
        forward_warnings t⟩ := by
  unfold estimate_rise_time_hours raw_bulk_hours forward_warnings
  rw [if_neg (not_le.2 h1), if_neg (not_le.2 h2)]

theorem two_rpow_pos (x : ℝ) : 0 < (2 : ℝ) ^ x :=
  Real.rpow_pos_of_pos (by norm_num) x

/-- C4: for every valid input the returned hours are the raw model value
clamped into [0.15, 72]: they never leave that interval, a raw value below
the floor comes back as 0.15, and a raw value above the ceiling comes back
as 72. -/
theorem c4_clamp_boundary (flour y t : ℝ) (h1 : 0 < flour) (h2 : 0 < y) :
    ∃ r, estimate_rise_time_hours flour y t 500 7 1 25 0.9 2 = Except.ok r ∧
      0.15 ≤ r.hours ∧ r.hours ≤ 72 ∧
      (raw_bulk_hours flour y t 500 7 1 25 0.9 2 < 0.15 → r.hours = 0.15) ∧
      (72 < raw_bulk_hours flour y t 500 7 1 25 0.9 2 → r.hours = 72) ∧
      r.hours = min 72 (max 0.15 (raw_bulk_hours flour y t 500 7 1 25 0.9 2)) := by
  refine ⟨_, estimate_eq_ok flour y t 500 7 1 25 0.9 2 h1 h2, ?_, ?_, ?_, ?_, rfl⟩
  · exact le_min (by norm_num) (le_max_left _ _)
  · exact min_le_left _ _
  · intro hlow
    rw [max_eq_left (le_of_lt hlow), min_eq_right (by norm_num)]
  · intro hhigh
    rw [max_eq_right (by linarith), min_eq_left (le_of_lt hhigh)]

/-- C4 witness at flour = 500 g, yeast = 7 g, temp = 25 °C. -/
theorem c4_clamp_boundary_witness :
    ∃ r, estimate_rise_time_hours 500 7 25 500 7 1 25 0.9 2 = Except.ok r ∧
      0.15 ≤ r.hours ∧ r.hours ≤ 72 ∧
      (raw_bulk_hours 500 7 25 500 7 1 25 0.9 2 < 0.15 → r.hours = 0.15) ∧
      (72 < raw_bulk_hours 500 7 25 500 7 1 25 0.9 2 → r.hours = 72) ∧
      r.hours = min 72 (max 0.15 (raw_bulk_hours 500 7 25 500 7 1 25 0.9 2)) :=
  c4_clamp_boundary 500 7 25 (by norm_num) (by norm_num)

/-- C9: the uncertainty band is computed from the clamped hours and is not
itself clamped: low = hours × 0.75 and high = hours × 1.35 always; when the
raw value is at or under the 0.15 floor the low bound is 0.1125, and when
it is at or over the 72 ceiling the high bound is 97.2. -/
theorem c9_band_not_clamped (flour y t : ℝ) (h1 : 0 < flour) (h2 : 0 < y) :
    ∃ r, estimate_rise_time_hours flour y t 500 7 1 25 0.9 2 = Except.ok r ∧
      r.low_hours = r.hours * 0.75 ∧ r.high_hours = r.hours * 1.35 ∧
      (raw_bulk_hours flour y t 500 7 1 25 0.9 2 ≤ 0.15 → r.low_hours = 0.1125) ∧
      (72 ≤ raw_bulk_hours flour y t 500 7 1 25 0.9 2 → r.high_hours = 97.2) := by
  refine ⟨_, estimate_eq_ok flour y t 500 7 1 25 0.9 2 h1 h2, rfl, rfl, ?_, ?_⟩
  · intro hlow
    show min 72 (max 0.15 (raw_bulk_hours flour y t 500 7 1 25 0.9 2)) * 0.75 = 0.1125
    rw [max_eq_left hlow, min_eq_right (by norm_num)]
    norm_num
  · intro hhigh
    show min 72 (max 0.15 (raw_bulk_hours flour y t 500 7 1 25 0.9 2)) * 1.35 = 97.2
    rw [max_eq_right (by linarith), min_eq_left hhigh]
    norm_num

/-- C9 witness at flour = 500 g, yeast = 7 g, temp = -85 °C. -/
theorem c9_band_not_clamped_witness :
    ∃ r, estimate_rise_time_hours 500 7 (-85) 500 7 1 25 0.9 2 = Except.ok r ∧
      r.low_hours = r.hours * 0.75 ∧ r.high_hours = r.hours * 1.35 ∧
      (raw_bulk_hours 500 7 (-85) 500 7 1 25 0.9 2 ≤ 0.15 → r.low_hours = 0.1125) ∧
      (72 ≤ raw_bulk_hours 500 7 (-85) 500 7 1 25 0.9 2 → r.high_hours = 97.2) :=
  c9_band_not_clamped 500 7 (-85) (by norm_num) (by norm_num)

theorem raw_cold_7_85 : raw_bulk_hours 500 7 (-85) 500 7 1 25 0.9 2 = 2048 := by
  unfold raw_bulk_hours
  rw [show ((25 : ℝ) - (-85)) / 10 = ((11 : ℕ) : ℝ) by norm_num, Real.rpow_natCast]
  norm_num [Real.one_rpow]

theorem raw_cold_7_75 : raw_bulk_hours 500 7 (-75) 500 7 1 25 0.9 2 = 1024 := by
  unfold raw_bulk_hours
  rw [show ((25 : ℝ) - (-75)) / 10 = ((10 : ℕ) : ℝ) by norm_num, Real.rpow_natCast]
  norm_num [Real.one_rpow]

theorem raw_cold_14_85 : 72 ≤ raw_bulk_hours 500 14 (-85) 500 7 1 25 0.9 2 := by
  have hhalf : (1 / 2 : ℝ) ≤ (1 / 2 : ℝ) ^ (0.9 : ℝ) := by
    calc (1 / 2 : ℝ) = (1 / 2 : ℝ) ^ (1 : ℝ) := (Real.rpow_one _).symm
    _ ≤ (1 / 2 : ℝ) ^ (0.9 : ℝ) :=
        Real.rpow_le_rpow_of_exponent_ge (by norm_num) (by norm_num) (by norm_num)
  unfold raw_bulk_hours
  rw [show ((7 : ℝ) / 500) / ((14 : ℝ) / 500) = 1 / 2 by norm_num,
    show ((25 : ℝ) - (-85)) / 10 = ((11 : ℕ) : ℝ) by norm_num, Real.rpow_natCast]
  nlinarith [hhalf]

theorem clamp_of_72_le {x : ℝ} (h : 72 ≤ x) : min 72 (max 0.15 x) = 72 := by
  rw [max_eq_right (by linarith), min_eq_left h]

/-- C2 counterexample: the claim of strictly fewer returned hours fails on
both of its parts, because the returned hours are clamped.  At -85 °C with
500 g flour, 7 g and 14 g of dry yeast both return exactly 72 hours; and at
fixed 7 g yeast, -85 °C and -75 °C both return exactly 72 hours. -/
theorem c2_monotonicity_counterexample :
    ((7 : ℝ) < 14 ∧
      ∃ r1 r2, estimate_rise_time_hours 500 7 (-85) 500 7 1 25 0.9 2 = Except.ok r1 ∧
        estimate_rise_time_hours 500 14 (-85) 500 7 1 25 0.9 2 = Except.ok r2 ∧
        r1.hours = 72 ∧ r2.hours = 72 ∧ ¬ r2.hours < r1.hours) ∧
    ((-85 : ℝ) < -75 ∧
      ∃ r3 r4, estimate_rise_time_hours 500 7 (-85) 500 7 1 25 0.9 2 = Except.ok r3 ∧
        estimate_rise_time_hours 500 7 (-75) 500 7 1 25 0.9 2 = Except.ok r4 ∧
        r3.hours = 72 ∧ r4.hours = 72 ∧ ¬ r4.hours < r3.hours) := by
  have h7 : min 72 (max 0.15 (raw_bulk_hours 500 7 (-85) 500 7 1 25 0.9 2)) = 72 :=
    clamp_of_72_le (by rw [raw_cold_7_85]; norm_num)
  have h14 : min 72 (max 0.15 (raw_bulk_hours 500 14 (-85) 500 7 1 25 0.9 2)) = 72 :=
    clamp_of_72_le raw_cold_14_85
  have h75 : min 72 (max 0.15 (raw_bulk_hours 500 7 (-75) 500 7 1 25 0.9 2)) = 72 :=
    clamp_of_72_le (by rw [raw_cold_7_75]; norm_num)
  constructor
  · refine ⟨by norm_num, _, _,
      estimate_eq_ok 500 7 (-85) 500 7 1 25 0.9 2 (by norm_num) (by norm_num),
      estimate_eq_ok 500 14 (-85) 500 7 1 25 0.9 2 (by norm_num) (by norm_num),
      h7, h14, ?_⟩
    show ¬ min 72 (max 0.15 (raw_bulk_hours 500 14 (-85) 500 7 1 25 0.9 2)) <
      min 72 (max 0.15 (raw_bulk_hours 500 7 (-85) 500 7 1 25 0.9 2))
    rw [h7, h14]
    exact lt_irrefl 72
  · refine ⟨by norm_num, _, _,
      estimate_eq_ok 500 7 (-85) 500 7 1 25 0.9 2 (by norm_num) (by norm_num),
      estimate_eq_ok 500 7 (-75) 500 7 1 25 0.9 2 (by norm_num) (by norm_num),
      h7, h75, ?_⟩
    show ¬ min 72 (max 0.15 (raw_bulk_hours 500 7 (-75) 500 7 1 25 0.9 2)) <
      min 72 (max 0.15 (raw_bulk_hours 500 7 (-85) 500 7 1 25 0.9 2))
    rw [h7, h75]
    exact lt_irrefl 72

/-- C2 amended: under the default calibration the UNCLAMPED model value is
strictly antitone in the yeast amount (for fixed flour and temperature) and
strictly antitone in the temperature (for fixed flour and yeast); the
returned, clamped hours are antitone but only weakly so. -/
theorem c2_monotonicity_amended :
    (∀ flour t y1 y2 : ℝ, 0 < flour → 0 < y1 → y1 < y2 →
      raw_bulk_hours flour y2 t 500 7 1 25 0.9 2 <
        raw_bulk_hours flour y1 t 500 7 1 25 0.9 2) ∧
    (∀ flour y t1 t2 : ℝ, 0 < flour → 0 < y → t1 < t2 →
      raw_bulk_hours flour y t2 500 7 1 25 0.9 2 <
        raw_bulk_hours flour y t1 500 7 1 25 0.9 2) ∧
    (∀ flour t y1 y2 : ℝ, ∀ r1 r2 : RiseEstimate, 0 < flour → 0 < y1 → y1 < y2 →
      estimate_rise_time_hours flour y1 t 500 7 1 25 0.9 2 = Except.ok r1 →
      estimate_rise_time_hours flour y2 t 500 7 1 25 0.9 2 = Except.ok r2 →
      r2.hours ≤ r1.hours) ∧
    (∀ flour y t1 t2 : ℝ, ∀ r1 r2 : RiseEstimate, 0 < flour → 0 < y → t1 < t2 →
      estimate_rise_time_hours flour y t1 500 7 1 25 0.9 2 = Except.ok r1 →
      estimate_rise_time_hours flour y t2 500 7 1 25 0.9 2 = Except.ok r2 →
      r2.hours ≤ r1.hours) := by
  have hyeast : ∀ flour t y1 y2 : ℝ, 0 < flour → 0 < y1 → y1 < y2 →
      raw_bulk_hours flour y2 t 500 7 1 25 0.9 2 <
        raw_bulk_hours flour y1 t 500 7 1 25 0.9 2 := by
    intro flour t y1 y2 h1 hy1 hlt
    have hy2 : 0 < y2 := hy1.trans hlt
    unfold raw_bulk_hours
    rw [one_mul, one_mul]
    apply mul_lt_mul_of_pos_right _ (two_rpow_pos _)
    apply Real.rpow_lt_rpow
      (le_of_lt (div_pos (by norm_num) (div_pos hy2 h1)))
      _ (by norm_num)
    rw [div_div_eq_mul_div, div_div_eq_mul_div]
    exact div_lt_div_of_pos_left (by positivity) hy1 hlt
  have htemp : ∀ flour y t1 t2 : ℝ, 0 < flour → 0 < y → t1 < t2 →
      raw_bulk_hours flour y t2 500 7 1 25 0.9 2 <
        raw_bulk_hours flour y t1 500 7 1 25 0.9 2 := by
    intro flour y t1 t2 h1 hy hlt
    unfold raw_bulk_hours
    rw [one_mul]
    apply mul_lt_mul_of_pos_left _
      (Real.rpow_pos_of_pos (div_pos (by norm_num) (div_pos hy h1)) _)
    exact (Real.rpow_lt_rpow_left_iff (by norm_num)).2 (by linarith)
  refine ⟨hyeast, htemp, ?_, ?_⟩
  · intro flour t y1 y2 r1 r2 h1 hy1 hlt he1 he2
    have e1 := (estimate_eq_ok flour y1 t 500 7 1 25 0.9 2 h1 hy1).symm.trans he1
    have e2 := (estimate_eq_ok flour y2 t 500 7 1 25 0.9 2 h1 (hy1.trans hlt)).symm.trans he2
    rw [Except.ok.injEq] at e1 e2
    rw [← e1, ← e2]
    exact min_le_min le_rfl (max_le_max le_rfl (le_of_lt (hyeast flour t y1 y2 h1 hy1 hlt)))
  · intro flour y t1 t2 r1 r2 h1 hy hlt he1 he2
    have e1 := (estimate_eq_ok flour y t1 500 7 1 25 0.9 2 h1 hy).symm.trans he1
    have e2 := (estimate_eq_ok flour y t2 500 7 1 25 0.9 2 h1 hy).symm.trans he2
    rw [Except.ok.injEq] at e1 e2
    rw [← e1, ← e2]
    exact min_le_min le_rfl (max_le_max le_rfl (le_of_lt (htemp flour y t1 t2 h1 hy hlt)))

/-- C2 amended witness: the strict raw-value drop and the weak clamped drop
at flour = 500 g, temp = 25 °C, yeast 7 g vs 14 g. -/
theorem c2_monotonicity_amended_witness :
    raw_bulk_hours 500 14 25 500 7 1 25 0.9 2 <
      raw_bulk_hours 500 7 25 500 7 1 25 0.9 2 :=
  c2_monotonicity_amended.1 500 25 7 14 (by norm_num) (by norm_num) (by norm_num)

theorem required_dry_eq_ok (flour d t : ℝ) (h1 : 0 < flour) (h2 : 0 < d) :
    required_yeast_for_time flour d t ("dry") 0.33 500 7 1 25 0.9 2 =
      Except.ok ⟨inv_dry_equiv flour d t, inv_dry_equiv flour d t, ("dry"),
        inverse_warnings d t (inv_dry_equiv flour d t)⟩ := by
  have hX : 0 < 1 * (2 : ℝ) ^ ((25 - t) / 10) / d :=
    div_pos (by rw [one_mul]; exact two_rpow_pos _) h2
  have hdry : (0 : ℝ) <
      7 / 500 * (1 * (2 : ℝ) ^ ((25 - t) / 10) / d) ^ ((1 : ℝ) / 0.9) * flour :=
    mul_pos (mul_pos (by norm_num) (Real.rpow_pos_of_pos hX _)) h1
  unfold required_yeast_for_time from_dry_equivalent_grams
  rw [if_neg (not_le.2 h1), if_neg (not_le.2 h2)]
  simp only [pyStripLower_dry, if_true]
  rw [if_neg (not_le.2 hdry)]
  simp only [Except.map]
  unfold inv_dry_equiv inverse_warnings
  rfl

/-- C1: the inverse computation is the exact algebraic inverse of the
forward model: for every flour mass > 0, temperature in [-10, 50] and
target bulk duration in [0.15, 72] hours, feeding the computed
dry-equivalent grams back into the forward model returns the target
exactly. -/
theorem c1_inversion_round_trip (flour d t : ℝ) (h1 : 0 < flour) (ht1 : -10 ≤ t)
    (ht2 : t ≤ 50) (hd1 : 0.15 ≤ d) (hd2 : d ≤ 72) :
    ∃ (yn : YeastNeeded) (re : RiseEstimate),
      required_yeast_for_time flour d t ("dry") 0.33 500 7 1 25 0.9 2 = Except.ok yn ∧
      estimate_rise_time_hours flour yn.dry_equiv_g t 500 7 1 25 0.9 2 = Except.ok re ∧
      re.hours = d := by
  have h2 : 0 < d := lt_of_lt_of_le (by norm_num) hd1
  have hX : 0 < 1 * (2 : ℝ) ^ ((25 - t) / 10) / d :=
    div_pos (by rw [one_mul]; exact two_rpow_pos _) h2
  have hdry : 0 < inv_dry_equiv flour d t := by
    unfold inv_dry_equiv
    exact mul_pos (mul_pos (by norm_num) (Real.rpow_pos_of_pos hX _)) h1
  refine ⟨_, _, required_dry_eq_ok flour d t h1 h2,
    estimate_eq_ok flour (inv_dry_equiv flour d t) t 500 7 1 25 0.9 2 h1 hdry, ?_⟩
  have hraw : raw_bulk_hours flour (inv_dry_equiv flour d t) t 500 7 1 25 0.9 2 = d := by
    unfold raw_bulk_hours inv_dry_equiv
    set T := (2 : ℝ) ^ ((25 - t) / 10) with hTdef
    have hTpos : 0 < T := two_rpow_pos _
    set X := 1 * T / d with hXdef
    have hXpos : 0 < X := hX
    rw [mul_div_cancel_right₀ _ (ne_of_gt h1),
      div_mul_cancel_left₀ (by norm_num : (7 / 500 : ℝ) ≠ 0),
      Real.inv_rpow (Real.rpow_nonneg (le_of_lt hXpos) _),
      ← Real.rpow_mul (le_of_lt hXpos),
      show ((1 : ℝ) / 0.9) * 0.9 = 1 by norm_num, Real.rpow_one, hXdef,
      one_mul, one_mul, inv_div, div_mul_cancel₀ _ (ne_of_gt hTpos)]
  show min 72 (max 0.15 (raw_bulk_hours flour (inv_dry_equiv flour d t) t 500 7 1 25 0.9 2)) = d
  rw [hraw, max_eq_right hd1, min_eq_right hd2]

/-- C1 witness at flour = 500 g, target = 1 h, temp = 25 °C. -/
theorem c1_inversion_round_trip_witness :
    ∃ (yn : YeastNeeded) (re : RiseEstimate),
      required_yeast_for_time 500 1 25 ("dry") 0.33 500 7 1 25 0.9 2 = Except.ok yn ∧
      estimate_rise_time_hours 500 yn.dry_equiv_g 25 500 7 1 25 0.9 2 = Except.ok re ∧
      re.hours = 1 :=
  c1_inversion_round_trip 500 1 25 (by norm_num) (by norm_num) (by norm_num)
    (by norm_num) (by norm_num)

theorem required_ok_inversion (flour d t : ℝ) (yt : String) (fac : ℝ)
    (r : YeastNeeded)
    (h : required_yeast_for_time flour d t yt fac 500 7 1 25 0.9 2 = Except.ok r) :
    r.dry_equiv_g = inv_dry_equiv flour d t ∧
    r.warnings = inverse_warnings d t (inv_dry_equiv flour d t) := by
  unfold required_yeast_for_time at h
  by_cases hf : flour ≤ 0
  · rw [if_pos hf] at h
    exact absurd h (by simp)
  rw [if_neg hf] at h
  by_cases hd : d ≤ 0
  · rw [if_pos hd] at h
    exact absurd h (by simp)
  rw [if_neg hd] at h
  simp only [] at h
  cases hq : from_dry_equivalent_grams
      (7 / 500 * (1 * (2 : ℝ) ^ ((25 - t) / 10) / d) ^ (1 / 0.9 : ℝ) * flour) yt fac with
  | error e =>
    rw [hq] at h
    exact absurd h (by simp [Except.map])
  | ok yg =>
    rw [hq] at h
    simp only [Except.map] at h
    rw [Except.ok.injEq] at h
    refine ⟨?_, ?_⟩
    · rw [← h]
      unfold inv_dry_equiv
      rfl
    · rw [← h]
      unfold inverse_warnings inv_dry_equiv
      rfl

theorem cond_singleton_eq_nil (P : Prop) [Decidable P] (x : String) :
    ((if P then [x] else []) = ([] : List String)) ↔ ¬ P := by
  by_cases h : P <;> simp [h]

theorem inverse_warnings_ne_nil (d t dry : ℝ) :
    inverse_warnings d t dry ≠ [] ↔
      ((t < -10 ∨ t > 50) ∨ t < 10 ∨ t > 32 ∨ dry < 0.1 ∨ dry > 30 ∨ d < 0.5) := by
  unfold inverse_warnings
  rw [ne_eq]
  simp only [List.append_eq_nil, cond_singleton_eq_nil]
  tauto

/-- C5: whenever `required_yeast_for_time` (default calibration) returns a
result, its warning list is nonempty exactly when the temperature is
outside [-10, 50], below 10, above 32, or at least 40 (the last band is
covered by the above-32 warning), or the computed dry-equivalent grams are
below 0.1 or above 30, or the desired time is below 0.5 h; in every other
case no warning is attached. -/
theorem c5_inverse_warnings (flour d t : ℝ) (yt : String) (fac : ℝ)
    (r : YeastNeeded)
    (h : required_yeast_for_time flour d t yt fac 500 7 1 25 0.9 2 = Except.ok r) :
    r.warnings ≠ [] ↔
      ((t < -10 ∨ t > 50) ∨ t < 10 ∨ t > 32 ∨ 40 ≤ t ∨
        r.dry_equiv_g < 0.1 ∨ r.dry_equiv_g > 30 ∨ d < 0.5) := by
  obtain ⟨hdry, hw⟩ := required_ok_inversion flour d t yt fac r h
  rw [hw, hdry, inverse_warnings_ne_nil]
  constructor
  · rintro (h1 | h2 | h3 | h5 | h6 | h7)
    · exact Or.inl h1
    · exact Or.inr (Or.inl h2)
    · exact Or.inr (Or.inr (Or.inl h3))
    · exact Or.inr (Or.inr (Or.inr (Or.inr (Or.inl h5))))
    · exact Or.inr (Or.inr (Or.inr (Or.inr (Or.inr (Or.inl h6)))))
    · exact Or.inr (Or.inr (Or.inr (Or.inr (Or.inr (Or.inr h7)))))
  · rintro (h1 | h2 | h3 | h4 | h5 | h6 | h7)
    · exact Or.inl h1
    · exact Or.inr (Or.inl h2)
    · exact Or.inr (Or.inr (Or.inl h3))
    · exact Or.inr (Or.inr (Or.inl (by linarith)))
    · exact Or.inr (Or.inr (Or.inr (Or.inl h5)))
    · exact Or.inr (Or.inr (Or.inr (Or.inr (Or.inl h6))))
    · exact Or.inr (Or.inr (Or.inr (Or.inr (Or.inr h7))))

/-- C5 witness at flour = 500 g, target = 1 h, temp = 25 °C, dry yeast. -/
theorem c5_inverse_warnings_witness :
    (YeastNeeded.mk (inv_dry_equiv 500 1 25) (inv_dry_equiv 500 1 25) ("dry")
        (inverse_warnings 1 25 (inv_dry_equiv 500 1 25))).warnings ≠ [] ↔
      (((25 : ℝ) < -10 ∨ (25 : ℝ) > 50) ∨ (25 : ℝ) < 10 ∨ (25 : ℝ) > 32 ∨
        (40 : ℝ) ≤ 25 ∨
        (YeastNeeded.mk (inv_dry_equiv 500 1 25) (inv_dry_equiv 500 1 25) ("dry")
          (inverse_warnings 1 25 (inv_dry_equiv 500 1 25))).dry_equiv_g < 0.1 ∨
        (YeastNeeded.mk (inv_dry_equiv 500 1 25) (inv_dry_equiv 500 1 25) ("dry")
          (inverse_warnings 1 25 (inv_dry_equiv 500 1 25))).dry_equiv_g > 30 ∨
        (1 : ℝ) < 0.5) :=
  c5_inverse_warnings 500 1 25 ("dry") 0.33 _
    (required_dry_eq_ok 500 1 25 (by norm_num) (by norm_num))

theorem takeWhile_append_eq (p : Char → Bool) (a r : List Char)
    (ha : ∀ c ∈ a, p c = true) (hr : ∀ c t', r = c :: t' → p c = false) :
    (a ++ r).takeWhile p = a := by
  induction a with
  | nil =>
    rw [List.nil_append]
    cases r with
    | nil => rfl
    | cons c t' => simp [List.takeWhile_cons, hr c t' rfl]
  | cons x xs ih =>
    rw [List.cons_append, List.takeWhile_cons, ha x (List.mem_cons_self x xs)]
    rw [ih fun c hc => ha c (List.mem_cons_of_mem x hc), if_pos rfl]

theorem dropWhile_append_all (p : Char → Bool) (a r : List Char)
    (ha : ∀ c ∈ a, p c = true) :
    (a ++ r).dropWhile p = r.dropWhile p := by
  induction a with
  | nil => rw [List.nil_append]
  | cons x xs ih =>
    rw [List.cons_append, List.dropWhile_cons, ha x (List.mem_cons_self x xs), if_pos rfl]
    exact ih fun c hc => ha c (List.mem_cons_of_mem x hc)

theorem dropWhile_head_false (p : Char → Bool) (r : List Char)
    (hr : ∀ c t', r = c :: t' → p c = false) :
    r.dropWhile p = r := by
  cases r with
  | nil => rfl
  | cons c t' => simp [List.dropWhile_cons, hr c t' rfl]

theorem dropWhile_append_eq (p : Char → Bool) (a r : List Char)
    (ha : ∀ c ∈ a, p c = true) (hr : ∀ c t', r = c :: t' → p c = false) :
    (a ++ r).dropWhile p = r := by
  rw [dropWhile_append_all p a r ha, dropWhile_head_false p r hr]

theorem mem_takeWhile_digit {c : Char} {l : List Char}
    (h : c ∈ l.takeWhile pyIsDigit) : pyIsDigit c = true := by
  induction l with
  | nil => exact absurd h (by simp)
  | cons x xs ih =>
    rw [List.takeWhile_cons] at h
    by_cases hx : pyIsDigit x
    · rw [if_pos hx] at h
      rcases List.mem_cons.1 h with rfl | h2
      · exact hx
      · exact ih h2
    · rw [if_neg hx] at h
      exact absurd h (by simp)

theorem mem_takeWhile_ws {c : Char} {l : List Char}
    (h : c ∈ l.takeWhile pyIsSpace) : pyIsSpace c = true := by
  induction l with
  | nil => exact absurd h (by simp)
  | cons x xs ih =>
    rw [List.takeWhile_cons] at h
    by_cases hx : pyIsSpace x
    · rw [if_pos hx] at h
      rcases List.mem_cons.1 h with rfl | h2
      · exact hx
      · exact ih h2
    · rw [if_neg hx] at h
      exact absurd h (by simp)

theorem pyDigit_run {c : Char} (h : pyIsDigit c = true) :
    ∃ z ∈ ndZeroPoints, z ≤ c.toNat ∧ c.toNat ≤ z + 9 := by
  unfold pyIsDigit at h
  rw [List.any_eq_true] at h
  obtain ⟨z, hz, hb⟩ := h
  rw [Bool.and_eq_true, decide_eq_true_eq, decide_eq_true_eq] at hb
  exact ⟨z, hz, hb⟩

theorem digit_not_ws {c : Char} (h : pyIsDigit c = true) : pyIsSpace c = false := by
  obtain ⟨z, hz, h1, h2⟩ := pyDigit_run h
  cases hw : pyIsSpace c with
  | false => rfl
  | true =>
    exfalso
    unfold pyIsSpace at hw
    have hmem : c.toNat ∈ wsCodes := List.elem_iff.1 hw
    have key : ∀ z' ∈ ndZeroPoints, ∀ w ∈ wsCodes, ¬(z' ≤ w ∧ w ≤ z' + 9) := by decide
    exact key z hz c.toNat hmem ⟨h1, h2⟩

theorem ws_not_digit {c : Char} (h : pyIsSpace c = true) : pyIsDigit c = false := by
  cases hd : pyIsDigit c with
  | false => rfl
  | true =>
    rw [digit_not_ws hd] at h
    exact Bool.noConfusion h

theorem ws_ne_dot {c : Char} (h : pyIsSpace c = true) : c ≠ '.' := by
  rintro rfl
  unfold pyIsSpace at h
  exact absurd (List.elem_iff.1 h) (by decide)

theorem digit_ne_dot {c : Char} (h : pyIsDigit c = true) : c ≠ '.' := by
  rintro rfl
  obtain ⟨z, hz, h1, h2⟩ := pyDigit_run h
  have key : ∀ z' ∈ ndZeroPoints, ¬(z' ≤ ('.').toNat ∧ ('.').toNat ≤ z' + 9) := by decide
  exact key z hz ⟨h1, h2⟩

theorem decimalShape_head {cs : List Char} {v : ℚ} (h : DecimalShape cs v) :
    ∃ c t', cs = c :: t' ∧ pyIsDigit c = true := by
  rcases h with ⟨hne, hdig, _⟩ | ⟨a, b, rfl, hane, _, hadig, _, _⟩
  · cases cs with
    | nil => exact absurd rfl hne
    | cons c t' => exact ⟨c, t', rfl, hdig c (List.mem_cons_self c t')⟩
  · cases a with
    | nil => exact absurd rfl hane
    | cons c t' =>
      exact ⟨c, t' ++ '.' :: b, by rw [List.cons_append],
        hadig c (List.mem_cons_self c t')⟩

theorem decimalShape_chars {cs : List Char} {v : ℚ} (h : DecimalShape cs v) :
    ∀ c ∈ cs, pyIsDigit c = true ∨ c = '.' := by
  rcases h with ⟨_, hdig, _⟩ | ⟨a, b, rfl, _, _, ha, hb, _⟩
  · exact fun c hc => Or.inl (hdig c hc)
  · intro c hc
    rcases List.mem_append.1 hc with hca | hcb
    · exact Or.inl (ha c hca)
    · rcases List.mem_cons.1 hcb with rfl | hcb2
      · exact Or.inr rfl
      · exact Or.inl (hb c hcb2)

theorem splitNumber_complete {num rest : List Char} {v : ℚ} (h : DecimalShape num v)
    (hr : ∀ c t', rest = c :: t' → pyIsDigit c = false ∧ c ≠ '.') :
    splitNumber (num ++ rest) = some (v, rest) := by
  rcases h with ⟨hne, hdig, hv⟩ | ⟨a, b, hnum, hane, hbne, hadig, hbdig, hv⟩
  · have htw : (num ++ rest).takeWhile pyIsDigit = num :=
      takeWhile_append_eq _ num rest hdig fun c t' hct => (hr c t' hct).1
    have hdw : (num ++ rest).dropWhile pyIsDigit = rest :=
      dropWhile_append_eq _ num rest hdig fun c t' hct => (hr c t' hct).1
    unfold splitNumber
    rw [htw, hdw, if_neg hne]
    cases rest with
    | nil => rw [hv]
    | cons c r2 =>
      obtain ⟨hcd, hcne⟩ := hr c r2 rfl
      simp only []
      rw [if_neg hcne, hv]
  · subst hnum
    have hbtw : (b ++ rest).takeWhile pyIsDigit = b :=
      takeWhile_append_eq _ b rest hbdig fun c t' hct => (hr c t' hct).1
    have hbdw : (b ++ rest).dropWhile pyIsDigit = rest :=
      dropWhile_append_eq _ b rest hbdig fun c t' hct => (hr c t' hct).1
    have htw : ((a ++ '.' :: b) ++ rest).takeWhile pyIsDigit = a := by
      rw [List.append_assoc, List.cons_append]
      exact takeWhile_append_eq _ a _ hadig
        (by rintro c t' hct; injection hct with h1 _; rw [← h1]; decide)
    have hdw : ((a ++ '.' :: b) ++ rest).dropWhile pyIsDigit = '.' :: (b ++ rest) := by
      rw [List.append_assoc, List.cons_append]
      exact dropWhile_append_eq _ a _ hadig
        (by rintro c t' hct; injection hct with h1 _; rw [← h1]; decide)
    unfold splitNumber
    rw [htw, hdw, if_neg hane]
    simp only []
    rw [if_true, hbtw, if_neg hbne, hbdw, hv]

theorem splitNumber_sound {cs : List Char} {v : ℚ} {rest : List Char}
    (h : splitNumber cs = some (v, rest)) :
    ∃ num, cs = num ++ rest ∧ DecimalShape num v := by
  unfold splitNumber at h
  by_cases hint : cs.takeWhile pyIsDigit = []
  · rw [if_pos hint] at h
    exact absurd h (by simp)
  rw [if_neg hint] at h
  have hcs : cs.takeWhile pyIsDigit ++ cs.dropWhile pyIsDigit = cs :=
    List.takeWhile_append_dropWhile pyIsDigit cs
  cases hrest : cs.dropWhile pyIsDigit with
  | nil =>
    rw [hrest] at h
    simp only [Option.some.injEq, Prod.mk.injEq] at h
    obtain ⟨hv, hrest'⟩ := h
    refine ⟨cs.takeWhile pyIsDigit, ?_, Or.inl ⟨hint,
      fun c hc => mem_takeWhile_digit hc, hv.symm⟩⟩
    subst hrest'
    rw [List.append_nil]
    conv_lhs => rw [← hcs, hrest]
    rw [List.append_nil]
  | cons c r2 =>
    rw [hrest] at h
    simp only [] at h
    by_cases hc : c = '.'
    · rw [if_pos hc] at h
      by_cases hfrac : r2.takeWhile pyIsDigit = []
      · rw [if_pos hfrac] at h
        exact absurd h (by simp)
      rw [if_neg hfrac] at h
      simp only [Option.some.injEq, Prod.mk.injEq] at h
      obtain ⟨hv, hr3⟩ := h
      subst hc
      refine ⟨cs.takeWhile pyIsDigit ++ '.' :: r2.takeWhile pyIsDigit, ?_, Or.inr
        ⟨cs.takeWhile pyIsDigit, r2.takeWhile pyIsDigit, rfl, hint, hfrac,
          fun c hc => mem_takeWhile_digit hc, fun c hc => mem_takeWhile_digit hc, hv.symm⟩⟩
      conv_lhs => rw [← hcs, hrest]
      rw [← hr3, List.append_assoc, List.cons_append,
        List.takeWhile_append_dropWhile]
    · rw [if_neg hc] at h
      simp only [Option.some.injEq, Prod.mk.injEq] at h
      obtain ⟨hv, hrest'⟩ := h
      refine ⟨cs.takeWhile pyIsDigit, ?_, Or.inl ⟨hint,
        fun x hx => mem_takeWhile_digit hx, hv.symm⟩⟩
      subst hrest'
      conv_lhs => rw [← hcs, hrest]

theorem matchBareNumber_complete {cs : List Char} {v : ℚ} (h : DecimalShape cs v) :
    matchBareNumber cs = some v := by
  have hs : splitNumber (cs ++ []) = some (v, []) :=
    splitNumber_complete h (by intro c t' hct; exact absurd hct (by simp))
  rw [List.append_nil] at hs
  unfold matchBareNumber
  rw [hs]

theorem matchBareNumber_sound {cs : List Char} {v : ℚ}
    (h : matchBareNumber cs = some v) : DecimalShape cs v := by
  unfold matchBareNumber at h
  cases hs : splitNumber cs with
  | none => rw [hs] at h; exact absurd h (by simp)
  | some p =>
    obtain ⟨v', rest⟩ := p
    rw [hs] at h
    cases rest with
    | nil =>
      simp only [Option.some.injEq] at h
      subst h
      obtain ⟨num, hn, hshape⟩ := splitNumber_sound hs
      rw [List.append_nil] at hn
      rw [hn]
      exact hshape
    | cons c r =>
      simp only [] at h
      exact absurd h (by simp)

theorem minuteUnits_good : ∀ u ∈ minuteUnits, goodUnit u := by
  intro u hu
  simp only [minuteUnits, List.mem_cons, List.not_mem_nil, or_false] at hu
  rcases hu with rfl | rfl | rfl | rfl | rfl <;> exact ⟨by decide, by decide⟩

theorem hourUnits_good : ∀ u ∈ hourUnits, goodUnit u := by
  intro u hu
  simp only [hourUnits, List.mem_cons, List.not_mem_nil, or_false] at hu
  rcases hu with rfl | rfl | rfl | rfl | rfl <;> exact ⟨by decide, by decide⟩

theorem hour_not_minute : ∀ u ∈ hourUnits, u ∉ minuteUnits := by decide

theorem matchNumberUnit_decomp (w0 num w1 u w2 : List Char) (v : ℚ)
    (units : List (List Char))
    (h0 : ∀ c ∈ w0, pyIsSpace c = true) (hn : DecimalShape num v)
    (h1 : ∀ c ∈ w1, pyIsSpace c = true) (h2 : ∀ c ∈ w2, pyIsSpace c = true)
    (hu : goodUnit u) :
    matchNumberUnit (w0 ++ num ++ w1 ++ u ++ w2) units =
      if units.contains u then some v else none := by
  obtain ⟨hune, huch⟩ := hu
  obtain ⟨c0, t0, hnum0, hc0⟩ := decimalShape_head hn
  obtain ⟨cu, tu, hu0⟩ : ∃ cu tu, u = cu :: tu := by
    cases u with
    | nil => exact absurd rfl hune
    | cons cu tu => exact ⟨cu, tu, rfl⟩
  have hcu := huch cu (by rw [hu0]; exact List.mem_cons_self cu tu)
  have st1 : (w0 ++ (num ++ (w1 ++ (u ++ w2)))).dropWhile pyIsSpace
      = num ++ (w1 ++ (u ++ w2)) := by
    rw [dropWhile_append_all _ w0 _ h0]
    apply dropWhile_head_false
    rintro c t' hct
    rw [hnum0, List.cons_append] at hct
    injection hct with hh _
    rw [← hh]
    exact digit_not_ws hc0
  have hsplit : splitNumber (num ++ (w1 ++ (u ++ w2))) = some (v, w1 ++ (u ++ w2)) := by
    apply splitNumber_complete hn
    rintro c t' hct
    cases w1 with
    | cons cw tw =>
      rw [List.cons_append] at hct
      injection hct with hh _
      rw [← hh]
      exact ⟨ws_not_digit (h1 cw (List.mem_cons_self cw tw)),
        ws_ne_dot (h1 cw (List.mem_cons_self cw tw))⟩
    | nil =>
      rw [List.nil_append, hu0, List.cons_append] at hct
      injection hct with hh _
      rw [← hh]
      exact ⟨hcu.2.1, hcu.2.2⟩
  have st3 : (w1 ++ (u ++ w2)).dropWhile pyIsSpace = u ++ w2 := by
    rw [dropWhile_append_all _ w1 _ h1]
    apply dropWhile_head_false
    rintro c t' hct
    rw [hu0, List.cons_append] at hct
    injection hct with hh _
    rw [← hh]
    exact hcu.1
  have hur : u.reverse.dropWhile pyIsSpace = u.reverse := by
    apply dropWhile_head_false
    rintro c t' hct
    have hcmem : c ∈ u.reverse := by rw [hct]; exact List.mem_cons_self c t'
    exact (huch c (List.mem_reverse.1 hcmem)).1
  have st4 : (((u ++ w2).reverse).dropWhile pyIsSpace).reverse = u := by
    rw [List.reverse_append,
      dropWhile_append_all _ w2.reverse _ fun c hc => h2 c (List.mem_reverse.1 hc),
      hur, List.reverse_reverse]
  unfold matchNumberUnit
  simp only [List.append_assoc]
  rw [st1, hsplit]
  simp only []
  rw [st3, st4]

theorem matchNumberUnit_sound {cs : List Char} {units : List (List Char)} {v : ℚ}
    (h : matchNumberUnit cs units = some v) :
    ∃ w0 num w1 u w2, cs = w0 ++ num ++ w1 ++ u ++ w2 ∧
      (∀ c ∈ w0, pyIsSpace c = true) ∧ DecimalShape num v ∧
      (∀ c ∈ w1, pyIsSpace c = true) ∧ (∀ c ∈ w2, pyIsSpace c = true) ∧
      u ∈ units := by
  unfold matchNumberUnit at h
  cases hs : splitNumber (cs.dropWhile pyIsSpace) with
  | none => rw [hs] at h; exact absurd h (by simp)
  | some p =>
    obtain ⟨v', rest⟩ := p
    rw [hs] at h
    simp only [] at h
    obtain ⟨rest1, hrest1⟩ : ∃ r', rest.dropWhile pyIsSpace = r' := ⟨_, rfl⟩
    rw [hrest1] at h
    obtain ⟨ur, hur⟩ : ∃ x, rest1.reverse.dropWhile pyIsSpace = x := ⟨_, rfl⟩
    rw [hur] at h
    by_cases hcont : units.contains ur.reverse = true
    · rw [if_pos hcont] at h
      simp only [Option.some.injEq] at h
      subst h
      obtain ⟨num, hsplit, hshape⟩ := splitNumber_sound hs
      have hcs0 : cs.takeWhile pyIsSpace ++ cs.dropWhile pyIsSpace = cs :=
        List.takeWhile_append_dropWhile pyIsSpace cs
      have erest : rest = rest.takeWhile pyIsSpace ++ rest1 := by
        rw [← hrest1]
        exact (List.takeWhile_append_dropWhile pyIsSpace rest).symm
      have erest1 : rest1 = ur.reverse ++ (rest1.reverse.takeWhile pyIsSpace).reverse := by
        have e0 : rest1.reverse.takeWhile pyIsSpace ++ ur = rest1.reverse := by
          rw [← hur]
          exact List.takeWhile_append_dropWhile pyIsSpace rest1.reverse
        conv_lhs => rw [← List.reverse_reverse rest1]
        conv_lhs => rw [← e0]
        rw [List.reverse_append]
      refine ⟨cs.takeWhile pyIsSpace, num, rest.takeWhile pyIsSpace,
        ur.reverse, (rest1.reverse.takeWhile pyIsSpace).reverse,
        ?_, fun c hc => mem_takeWhile_ws hc, hshape, fun c hc => mem_takeWhile_ws hc,
        fun c hc => mem_takeWhile_ws (List.mem_reverse.1 hc), List.elem_iff.1 hcont⟩
      simp only [List.append_assoc]
      conv_lhs => rw [← hcs0]
      conv_lhs => rw [hsplit]
      conv_lhs => rw [erest]
      conv_lhs => rw [erest1]
    · rw [if_neg hcont] at h
      exact absurd h (by simp)

/-- C8: `parse_duration_to_hours` succeeds exactly on the accepted grammar
with a positive value: it returns `h` hours iff the normalised input (after
stripping, lowercasing and comma-to-dot replacement) is a bare decimal
denoting `h`, or a decimal with a minute-form unit denoting `60 h`, or a
decimal with an hour-form unit denoting `h`, with `h > 0`; it fails exactly
when no accepted form with a positive value exists. -/
theorem c8_duration_parsing (s : String) :
    (∀ h : ℚ, parse_duration_to_hours s = Except.ok h ↔
      DurationForm (normalizeInput s) h ∧ 0 < h) ∧
    ((∃ e, parse_duration_to_hours s = Except.error e) ↔
      ¬ ∃ h : ℚ, DurationForm (normalizeInput s) h ∧ 0 < h) := by
  have main : ∀ h : ℚ, parse_duration_to_hours s = Except.ok h ↔
      DurationForm (normalizeInput s) h ∧ 0 < h := by
    intro h
    constructor
    · intro hp
      unfold parse_duration_to_hours at hp
      cases hb : matchBareNumber (normalizeInput s) with
      | some v =>
        rw [hb] at hp
        simp only [] at hp
        by_cases hv : v ≤ 0
        · rw [if_pos hv] at hp
          exact absurd hp (by simp)
        · rw [if_neg hv] at hp
          rw [Except.ok.injEq] at hp
          subst hp
          exact ⟨Or.inl (matchBareNumber_sound hb), lt_of_not_le hv⟩
      | none =>
        rw [hb] at hp
        simp only [] at hp
        cases hm : matchNumberUnit (normalizeInput s) minuteUnits with
        | some v =>
          rw [hm] at hp
          simp only [] at hp
          by_cases hv : v ≤ 0
          · rw [if_pos hv] at hp
            exact absurd hp (by simp)
          · rw [if_neg hv] at hp
            rw [Except.ok.injEq] at hp
            obtain ⟨w0, num, w1, u, w2, hcs, h0, hn, h1, h2, humem⟩ :=
              matchNumberUnit_sound hm
            refine ⟨Or.inr ⟨w0, num, w1, u, w2, v, hcs, h0, hn, h1, h2,
              Or.inl ⟨humem, hp.symm⟩⟩, ?_⟩
            rw [← hp]
            exact div_pos (lt_of_not_le hv) (by norm_num)
        | none =>
          rw [hm] at hp
          simp only [] at hp
          cases hh : matchNumberUnit (normalizeInput s) hourUnits with
          | some v =>
            rw [hh] at hp
            simp only [] at hp
            by_cases hv : v ≤ 0
            · rw [if_pos hv] at hp
              exact absurd hp (by simp)
            · rw [if_neg hv] at hp
              rw [Except.ok.injEq] at hp
              subst hp
              obtain ⟨w0, num, w1, u, w2, hcs, h0, hn, h1, h2, humem⟩ :=
                matchNumberUnit_sound hh
              exact ⟨Or.inr ⟨w0, num, w1, u, w2, v, hcs, h0, hn, h1, h2,
                Or.inr ⟨humem, rfl⟩⟩, lt_of_not_le hv⟩
          | none =>
            rw [hh] at hp
            exact absurd hp (by simp)
    · rintro ⟨hf, hpos⟩
      rcases hf with hdec | ⟨w0, num, w1, u, w2, v, hcs, h0, hn, h1, h2, hcase⟩
      · have hb := matchBareNumber_complete hdec
        unfold parse_duration_to_hours
        rw [hb]
        simp only []
        rw [if_neg (not_le.2 hpos)]
      · have hgood : goodUnit u := by
          rcases hcase with ⟨humem, _⟩ | ⟨humem, _⟩
          · exact minuteUnits_good u humem
          · exact hourUnits_good u humem
        obtain ⟨hune, huch⟩ := hgood
        obtain ⟨cu, tu, hu0⟩ : ∃ cu tu, u = cu :: tu := by
          cases u with
          | nil => exact absurd rfl hune
          | cons cu tu => exact ⟨cu, tu, rfl⟩
        have hcuprops := huch cu (by rw [hu0]; exact List.mem_cons_self cu tu)
        have hcumem : cu ∈ normalizeInput s := by
          rw [hcs, hu0]
          simp [List.mem_append]
        have hbnone : matchBareNumber (normalizeInput s) = none := by
          cases hb : matchBareNumber (normalizeInput s) with
          | none => rfl
          | some v' =>
            exfalso
            rcases decimalShape_chars (matchBareNumber_sound hb) cu hcumem with hd | hdot
            · rw [hcuprops.2.1] at hd
              exact Bool.noConfusion hd
            · exact hcuprops.2.2 hdot
        have hrun : ∀ units, matchNumberUnit (normalizeInput s) units =
            if units.contains u then some v else none := by
          intro units
          rw [hcs]
          exact matchNumberUnit_decomp w0 num w1 u w2 v units h0 hn h1 h2 ⟨hune, huch⟩
        have hvpos : 0 < v := by
          rcases hcase with ⟨_, hh⟩ | ⟨_, hh⟩
          · have hv60 : v = h * 60 := by rw [hh]; field_simp
            rw [hv60]
            exact mul_pos hpos (by norm_num)
          · rw [hh] at hpos
            exact hpos
        unfold parse_duration_to_hours
        rw [hbnone]
        simp only []
        rcases hcase with ⟨humem, hh⟩ | ⟨humem, hh⟩
        · rw [hrun minuteUnits, if_pos (List.elem_iff.2 humem)]
          simp only []
          rw [if_neg (not_le.2 hvpos), hh]
        · rw [hrun minuteUnits,
            if_neg fun hc => hour_not_minute u humem (List.elem_iff.1 hc),
            hrun hourUnits, if_pos (List.elem_iff.2 humem)]
          simp only []
          rw [if_neg (not_le.2 hvpos), hh]
  refine ⟨main, ?_⟩
  constructor
  · rintro ⟨e, he⟩ ⟨h, hf, hpos⟩
    have hok := (main h).2 ⟨hf, hpos⟩
    rw [hok] at he
    exact absurd he (by simp)
  · intro hne
    cases hp : parse_duration_to_hours s with
    | error e => exact ⟨e, rfl⟩
    | ok h => exact absurd ⟨h, (main h).1 hp⟩ hne

/-- C8 witness: the input 90m parses to 1.5 hours, derived through the
grammar characterisation. -/
theorem c8_duration_parsing_witness :
    parse_duration_to_hours ("90m") = Except.ok (3 / 2) := by
  have hdv : digitsVal (("90").toList) = 90 := by
    have h9 : pyDigitVal '9' = 9 := by decide
    have h0 : pyDigitVal '0' = 0 := by decide
    simp [digitsVal, List.foldl, h9, h0]
    norm_num
  apply ((c8_duration_parsing ("90m")).1 (3 / 2)).mpr
  exact ⟨Or.inr ⟨[], ("90").toList, [], ("m").toList, [], 90, by decide, by decide,
    Or.inl ⟨by decide, by decide, hdv.symm⟩, by decide, by decide,
    Or.inl ⟨by decide, by norm_num⟩⟩, by norm_num⟩
